import Mathlib

/-!
Shallow embedding of `src/main.rs` of the `pandemic` crate: a disease-spread
simulator over a spatial hash grid of mobile agents.

Modelling conventions:
* `f32` values are modelled as real numbers; Rust's `powf` is `Real.rpow`.
* The global random source is an infinite stream `rng : ℕ → ℝ` of uniform
  draws; the library call `random_bool p` at stream position `k` is modelled
  as the comparison `rng k < p`, and the stream position advances by one per
  call, in program order.
* The `HashMap<(i32, i32), Vec<Person>>` spatial grid is modelled as an
  association list; every theorem quantifies over the list, so every hash
  iteration order is covered.
* `usize` aggregate counters are modelled as `ℤ` (in Rust a decrement of a
  zero counter aborts the program; on `ℤ` the same decrement is exact, and
  reachable states never decrement a zero counter).
* Construction (`Pandemic::new`) is fallible: `total - infected` on `usize`
  underflows (aborts) when `infected > total`, so the embedding returns
  `Option Pandemic`, with `none` for the aborting branch.
* UI, rendering and platform bootstrap are out of scope; the engine state and
  `Pandemic::step` are embedded in full.
-/

noncomputable section

/-- Domain width `X_MAX_FLOAT` (lines 128-131 of main.rs). -/
def X_MAX_FLOAT : ℝ := 80

/-- Domain height `Y_MAX_FLOAT` (lines 128-131 of main.rs). -/
def Y_MAX_FLOAT : ℝ := 50

/-- `MOVE_AMOUNT` (line 362): motion per millisecond. -/
def MOVE_AMOUNT : ℝ := 1 / 100

/-- Health state of one agent (lines 557-563). `Infected` carries the elapsed
infection time in milliseconds. -/
inductive InfectionState where
  | Healthy
  | Infected (t : ℝ)
  | Recovered
  | Dead

/-- Matches `matches!(state, InfectionState::Infected(_))` (line 435). -/
def InfectionState.isInfected : InfectionState → Bool
  | .Infected _ => true
  | _ => false

/-- Matches `state == InfectionState::Dead` (line 451). -/
def InfectionState.isDead : InfectionState → Bool
  | .Dead => true
  | _ => false

/-- One agent (lines 550-555): position, heading and health state. -/
structure Person where
  x : ℝ
  y : ℝ
  direction : ℝ
  state : InfectionState

/-- Rust's `as i32` cast of a (finite, in-range) float: truncation toward
zero (lines 427-428, 456, 489). -/
def asI32 (x : ℝ) : ℤ := if 0 ≤ x then ⌊x⌋ else ⌈x⌉

/-- The spatial grid `HashMap<(i32, i32), Vec<Person>>` (line 471), as an
association list from cell keys to the agents bucketed in that cell. -/
def GridMap : Type := List ((ℤ × ℤ) × List Person)

/-- `map.entry(key).or_default().push(person)` (lines 454-458, 489, 498):
append the person to the bucket of `key`, creating the bucket if absent. -/
def gridPush (g : GridMap) (key : ℤ × ℤ) (p : Person) : GridMap :=
  match g with
  | [] => [(key, [p])]
  | (k, ps) :: rest =>
      if k = key then (k, ps ++ [p]) :: rest else (k, ps) :: gridPush rest key p

/-- All agents stored in the grid, in bucket order. -/
def gridPersons : GridMap → List Person
  | [] => []
  | (_, ps) :: rest => ps ++ gridPersons rest

/-- `SpatialGrid::new_with_capacity` (lines 474-506), with the
`random_range` draws supplied externally: agent number `i` receives position
and heading `place i`.  The first `infected` agents are created
`Infected(0.0)`, the remaining `total - infected` are created `Healthy`. -/
def new_with_capacity (place : ℕ → ℝ × ℝ × ℝ) (infected total : ℕ) : GridMap :=
  let ins : GridMap → ℕ → InfectionState → GridMap := fun g i st =>
    let q := place i
    gridPush g (asI32 q.1, asI32 q.2.1) ⟨q.1, q.2.1, q.2.2, st⟩
  let g1 := (List.range infected).foldl (fun g i => ins g i (.Infected 0)) []
  (List.range (total - infected)).foldl (fun g i => ins g (infected + i) .Healthy) g1

/-- One aggregate statistics record (lines 565-571). -/
structure PandemicSnapshot where
  time : ℝ
  num_healthy : ℤ
  num_infected : ℤ
  num_recovered : ℤ
  num_dead : ℤ

/-- The engine state (lines 74-98), restricted to the simulation-relevant
fields (UI fields `paused`, `graph` and the wall clock are out of scope; the
elapsed wall time of a frame is passed into `step` instead). -/
structure Pandemic where
  init_infected : ℕ
  total : ℕ
  infection_prob : ℝ
  infection_time_s : ℝ
  death_prob : ℝ
  step_speed : ℝ
  grid : GridMap
  time_elapsed : ℝ
  num_healthy : ℤ
  num_infected : ℤ
  num_recovered : ℤ
  num_dead : ℤ
  stats : List PandemicSnapshot

/-- `Pandemic::new` (lines 134-156).  The Rust code computes
`total - infected` on `usize` (twice: the healthy count and the loop bound in
`new_with_capacity`), which underflows and aborts the program when
`infected > total`; that branch is `none` here. -/
def Pandemic.new (place : ℕ → ℝ × ℝ × ℝ) (infected total : ℕ) : Option Pandemic :=
  if infected ≤ total then
    some
      { init_infected := infected
        total := total
        infection_prob := 1 / 2
        infection_time_s := 14
        death_prob := 1 / 10
        step_speed := 1
        grid := new_with_capacity place infected total
        time_elapsed := 0
        num_healthy := (total : ℤ) - (infected : ℤ)
        num_infected := (infected : ℤ)
        num_recovered := 0
        num_dead := 0
        stats := [] }
  else none

/-- The per-frame derived quantities of `Pandemic::step` (lines 362-374). -/
structure StepCtx where
  frame_time : ℝ
  infection_time : ℝ
  survive_this_frame : ℝ
  not_infected_this_frame : ℝ
  dist_to_move : ℝ

/-- Lines 362-374 and 380: `frame_time = elapsed_ms * step_speed`, the two
per-frame survival/non-infection probabilities (`powf` is `Real.rpow`), and
the distance moved this frame. -/
def mkStepCtx (s : Pandemic) (elapsedMs : ℝ) : StepCtx :=
  let frame_time := elapsedMs * s.step_speed
  let infection_time := s.infection_time_s * 1000
  { frame_time := frame_time
    infection_time := infection_time
    survive_this_frame := (1 - s.death_prob) ^ (frame_time / infection_time)
    not_infected_this_frame :=
      (1 - s.infection_prob) ^ (frame_time / ((3 / 2) / MOVE_AMOUNT))
    dist_to_move := MOVE_AMOUNT * frame_time }

/-- Movement and boundary reflection (lines 383-403).  The heading update is
exactly the source's: both reflection branches read the pre-movement heading
`dir`, so a y-axis bounce overwrites (rather than composes with) an x-axis
bounce of the same tick. -/
def moveReflect (dist : ℝ) (p : Person) : Person :=
  let dir := p.direction
  let x1 := p.x + dist * Real.sin dir
  let y1 := p.y + dist * Real.cos dir
  let xr : ℝ × ℝ :=
    if x1 < 0 then (-x1, -dir)
    else if x1 > X_MAX_FLOAT then (2 * X_MAX_FLOAT - x1, -dir)
    else (x1, dir)
  let yr : ℝ × ℝ :=
    if y1 < 0 then (-y1, Real.pi - dir)
    else if y1 > Y_MAX_FLOAT then (2 * Y_MAX_FLOAT - y1, Real.pi - dir)
    else (y1, xr.2)
  { p with x := xr.1, y := yr.1, direction := yr.2 }

/-- Lines 426-429: the closure's final test, true when the person's new cell
key differs from the bucket being scanned (so it must be relocated). -/
def leavesCell (cell : ℤ × ℤ) (p : Person) : Bool :=
  decide (asI32 p.x ≠ cell.1) || decide (asI32 p.y ≠ cell.2)

/-- Result of one `extract_if` closure call: the updated person, whether the
closure returned `true` (extract), how many random draws it consumed, and the
deltas it applied to the infected/recovered/dead counters. -/
structure StepOut where
  person : Person
  extracted : Bool
  draws : ℕ
  dInf : ℤ
  dRec : ℤ
  dDead : ℤ

/-- The body of the `extract_if` closure (lines 381-430) for one person:
move and reflect, then, if infected, roll the death draw `u` against
`1 - survive_this_frame`, update the infection clock, and finally decide
extraction.  A death returns `true` immediately (line 412).  The source
matches on `person.state` after the in-place movement; movement never writes
`state`, so the match here is on `p.state` (with `p1` the moved person). -/
def personOutcome (ctx : StepCtx) (u : ℝ) (cell : ℤ × ℤ) (p : Person) : StepOut :=
  let p1 := moveReflect ctx.dist_to_move p
  match p.state with
  | .Infected t =>
      if u < 1 - ctx.survive_this_frame then
        ⟨{ p1 with state := .Dead }, true, 1, -1, 0, 1⟩
      else
        let nt := t + ctx.frame_time
        if nt > ctx.infection_time then
          let p2 := { p1 with state := .Recovered }
          ⟨p2, leavesCell cell p2, 1, -1, 1, 0⟩
        else
          let p2 := { p1 with state := .Infected nt }
          ⟨p2, leavesCell cell p2, 1, 0, 0, 0⟩
  | _ => ⟨p1, leavesCell cell p1, 0, 0, 0, 0⟩

/-- The mutable state threaded through a tick: the four aggregate counters,
the position `k` of the next random draw, and the `people_to_move`
accumulator (line 376). -/
structure MidState where
  num_healthy : ℤ
  num_infected : ℤ
  num_recovered : ℤ
  num_dead : ℤ
  k : ℕ
  moved : List Person

/-- `people.extract_if(.., closure)` drained into `people_to_move`
(lines 381-430): each person is processed in order by the closure; those for
which it returns `true` are appended to `moved`, the rest stay in the cell. -/
def runExtract (ctx : StepCtx) (rng : ℕ → ℝ) (cell : ℤ × ℤ) :
    MidState → List Person → MidState × List Person
  | ms, [] => (ms, [])
  | ms, p :: ps =>
      let o := personOutcome ctx (rng ms.k) cell p
      let ms' : MidState :=
        { ms with
          num_infected := ms.num_infected + o.dInf
          num_recovered := ms.num_recovered + o.dRec
          num_dead := ms.num_dead + o.dDead
          k := ms.k + o.draws
          moved := if o.extracted then ms.moved ++ [o.person] else ms.moved }
      let r := runExtract ctx rng cell ms' ps
      (r.1, if o.extracted then r.2 else o.person :: r.2)

/-- One step of the infection-testing loop (lines 437-446): every person in
the cell consumes one random draw; a `Healthy` person whose draw succeeds
against `1 - not_infected_this_frame` becomes `Infected(0.0)`. -/
def infectOutcome (ctx : StepCtx) (u : ℝ) (p : Person) : Person × Bool :=
  match p.state, decide (u < 1 - ctx.not_infected_this_frame) with
  | .Healthy, true => ({ p with state := .Infected 0 }, true)
  | _, _ => (p, false)

/-- The `for person in people` infection loop (lines 437-446). -/
def runInfect (ctx : StepCtx) (rng : ℕ → ℝ) :
    MidState → List Person → MidState × List Person
  | ms, [] => (ms, [])
  | ms, p :: ps =>
      let ob := infectOutcome ctx (rng ms.k) p
      let ms' : MidState :=
        { ms with
          k := ms.k + 1
          num_healthy := if ob.2 then ms.num_healthy - 1 else ms.num_healthy
          num_infected := if ob.2 then ms.num_infected + 1 else ms.num_infected }
      let r := runInfect ctx rng ms' ps
      (r.1, ob.1 :: r.2)

/-- Lines 432-447: infection testing runs on the post-movement still-resident
membership of the cell, and only when it still contains an infected agent. -/
def infectPhase (ctx : StepCtx) (rng : ℕ → ℝ) (ms : MidState)
    (stay : List Person) : MidState × List Person :=
  if stay.any (fun p => p.state.isInfected) then runInfect ctx rng ms stay
  else (ms, stay)

/-- Processing of one grid bucket (lines 378-447): the `extract_if` movement
and health pass, then the infection pass over what stayed. -/
def runCell (ctx : StepCtx) (rng : ℕ → ℝ) (ms : MidState) (cell : ℤ × ℤ)
    (people : List Person) : MidState × List Person :=
  let r := runExtract ctx rng cell ms people
  infectPhase ctx rng r.1 r.2

/-- The loop over all grid buckets (line 378). -/
def runGrid (ctx : StepCtx) (rng : ℕ → ℝ) :
    MidState → GridMap → MidState × GridMap
  | ms, [] => (ms, [])
  | ms, (cell, people) :: rest =>
      let r := runCell ctx rng ms cell people
      let r' := runGrid ctx rng r.1 rest
      (r'.1, (cell, r.2) :: r'.2)

/-- Lines 450-459: a moved person is reinserted into the bucket of its new
position, unless it is dead (`continue`). -/
def reinsertPerson (g : GridMap) (p : Person) : GridMap :=
  if p.state.isDead then g else gridPush g (asI32 p.x, asI32 p.y) p

/-- The reinsertion loop over `people_to_move` (lines 449-459). -/
def reinsertAll (g : GridMap) (ps : List Person) : GridMap :=
  ps.foldl reinsertPerson g

/-- `Pandemic::step` (lines 360-468).  `elapsedMs` is the elapsed wall-clock
time of the frame in milliseconds (`last_frame_time.elapsed()`); the code adds
the unscaled elapsed time to `time_elapsed` and multiplies it by `step_speed`
to obtain the simulated frame time. -/
def Pandemic.step (rng : ℕ → ℝ) (elapsedMs : ℝ) (s : Pandemic) : Pandemic :=
  let ctx := mkStepCtx s elapsedMs
  let ms0 : MidState :=
    ⟨s.num_healthy, s.num_infected, s.num_recovered, s.num_dead, 0, []⟩
  let r := runGrid ctx rng ms0 s.grid
  let ms := r.1
  let grid2 := reinsertAll r.2 ms.moved
  let time' := s.time_elapsed + elapsedMs
  { s with
    grid := grid2
    time_elapsed := time'
    num_healthy := ms.num_healthy
    num_infected := ms.num_infected
    num_recovered := ms.num_recovered
    num_dead := ms.num_dead
    stats := s.stats ++
      [⟨time', ms.num_healthy, ms.num_infected, ms.num_recovered, ms.num_dead⟩] }

/-- Sum of the four aggregate counters of the engine state. -/
def countsSum (s : Pandemic) : ℤ :=
  s.num_healthy + s.num_infected + s.num_recovered + s.num_dead

/-- A whole run: fold `step` over a list of `(random stream, elapsed ms)`
tick inputs. -/
def runSteps (s : Pandemic) (ticks : List ((ℕ → ℝ) × ℝ)) : Pandemic :=
  ticks.foldl (fun st tk => Pandemic.step tk.1 tk.2 st) s

/-- An agent position inside the simulation domain. -/
def inDomain (p : Person) : Prop :=
  0 ≤ p.x ∧ p.x ≤ X_MAX_FLOAT ∧ 0 ≤ p.y ∧ p.y ≤ Y_MAX_FLOAT

/-- One-axis mirror reflection as the source performs it (lines 390-403):
negate below zero, fold back above the maximum, once only. -/
def reflectCoord (m x : ℝ) : ℝ :=
  if x < 0 then -x else if x > m then 2 * m - x else x

/-- A random stream whose uniform draws all equal 1, so that no Bernoulli
draw with a probability at most 1 ever succeeds. -/
def rngOne : ℕ → ℝ := fun _ => 1

/-- A constant placement function for concrete initializations. -/
def placeOne : ℕ → ℝ × ℝ × ℝ := fun _ => (1, 1, 0)

/-- A concrete recovered agent resident in cell (1, 1). -/
def sampleRecovered : Person := ⟨3 / 2, 6 / 5, 0, .Recovered⟩

/-- A concrete infected agent resident in cell (1, 1). -/
def sampleInfected : Person := ⟨3 / 2, 6 / 5, 0, .Infected 0⟩

/-- A concrete engine state holding one recovered agent. -/
def sampleState : Pandemic :=
  { init_infected := 0, total := 1, infection_prob := 1 / 2, infection_time_s := 14
    death_prob := 1 / 10, step_speed := 1, grid := [((1, 1), [sampleRecovered])]
    time_elapsed := 0, num_healthy := 0, num_infected := 0, num_recovered := 1
    num_dead := 0, stats := [] }

/-- A concrete engine state holding one infected agent. -/
def infectedState : Pandemic :=
  { sampleState with
    grid := [((1, 1), [sampleInfected])]
    num_infected := 1
    num_recovered := 0 }

/-- The sample state at double playback speed. -/
def speedState : Pandemic := { sampleState with step_speed := 2 }

/-- A healthy agent heading straight down (towards negative y). -/
def escaper : Person := ⟨5, 1, Real.pi, .Healthy⟩

/-- A concrete engine state holding the down-heading agent. -/
def escapeState : Pandemic :=
  { sampleState with
    grid := [((5, 1), [escaper])]
    num_healthy := 1
    num_recovered := 0 }

/-- An agent near the domain corner heading diagonally down-left. -/
def cornerPerson : Person := ⟨1 / 2, 1 / 2, Real.pi + Real.pi / 4, .Healthy⟩

/-- A concrete infected agent for instantiating the death-roll theorem. -/
def witnessInfected : Person := ⟨0, 0, 0, .Infected 5⟩

/-- A zeroed mid-tick bookkeeping state. -/
def msZero : MidState := ⟨0, 0, 0, 0, 0, []⟩

/-- The state produced by `Pandemic.new placeOne 1 2`. -/
def initTwo : Pandemic :=
  { init_infected := 1, total := 2, infection_prob := 1 / 2, infection_time_s := 14
    death_prob := 1 / 10, step_speed := 1, grid := new_with_capacity placeOne 1 2
    time_elapsed := 0, num_healthy := 1, num_infected := 1, num_recovered := 0
    num_dead := 0, stats := [] }

/-- The legal one-tick evolutions of a health state (`Δ` is the frame time):
stay put, catch the infection fresh, advance the infection clock, recover,
or die — and the terminal states only stay put. -/
inductive LegalTick (Δ : ℝ) : InfectionState → InfectionState → Prop
  | healthy_stays : LegalTick Δ .Healthy .Healthy
  | infect : LegalTick Δ .Healthy (.Infected 0)
  | advance (t : ℝ) : LegalTick Δ (.Infected t) (.Infected (t + Δ))
  | recover (t : ℝ) : LegalTick Δ (.Infected t) .Recovered
  | die (t : ℝ) : LegalTick Δ (.Infected t) .Dead
  | recovered_stays : LegalTick Δ .Recovered .Recovered
  | dead_stays : LegalTick Δ .Dead .Dead

/-- The one-tick relation between an agent of the pre-tick grid and what it
has become by the end of the tick: first the movement/health closure, then
(when it stayed in an infection-testing cell) the infection draw. -/
def tickRel (ctx : StepCtx) (p q : Person) : Prop :=
  ∃ u cell, q = (personOutcome ctx u cell p).person ∨
    ∃ v, q = (infectOutcome ctx v (personOutcome ctx u cell p).person).1

/-- No dead agent is stored in the grid. -/
def gridNoDead (g : GridMap) : Prop :=
  ∀ p ∈ gridPersons g, p.state.isDead = false

/-- Number of non-dead persons in a list. -/
def countLive (ps : List Person) : ℕ :=
  ps.countP (fun p => !p.state.isDead)

/-- Sum of the four aggregate counters of the threaded mid-tick state. -/
def msSum (ms : MidState) : ℤ :=
  ms.num_healthy + ms.num_infected + ms.num_recovered + ms.num_dead

/-! ## Basic lemmas about the per-person functions -/

theorem moveReflect_state (d : ℝ) (p : Person) :
    (moveReflect d p).state = p.state := rfl

theorem personOutcome_of_healthy (ctx : StepCtx) (u : ℝ) (cell : ℤ × ℤ)
    (p : Person) (h : p.state = .Healthy) :
    personOutcome ctx u cell p =
      ⟨moveReflect ctx.dist_to_move p,
        leavesCell cell (moveReflect ctx.dist_to_move p), 0, 0, 0, 0⟩ := by
  simp only [personOutcome, h]

theorem personOutcome_of_recovered (ctx : StepCtx) (u : ℝ) (cell : ℤ × ℤ)
    (p : Person) (h : p.state = .Recovered) :
    personOutcome ctx u cell p =
      ⟨moveReflect ctx.dist_to_move p,
        leavesCell cell (moveReflect ctx.dist_to_move p), 0, 0, 0, 0⟩ := by
  simp only [personOutcome, h]

theorem personOutcome_of_dead (ctx : StepCtx) (u : ℝ) (cell : ℤ × ℤ)
    (p : Person) (h : p.state = .Dead) :
    personOutcome ctx u cell p =
      ⟨moveReflect ctx.dist_to_move p,
        leavesCell cell (moveReflect ctx.dist_to_move p), 0, 0, 0, 0⟩ := by
  simp only [personOutcome, h]

theorem personOutcome_of_infected (ctx : StepCtx) (u : ℝ) (cell : ℤ × ℤ)
    (p : Person) (t : ℝ) (h : p.state = .Infected t) :
    personOutcome ctx u cell p =
      (if u < 1 - ctx.survive_this_frame then
        ⟨{ moveReflect ctx.dist_to_move p with state := .Dead }, true, 1, -1, 0, 1⟩
      else if t + ctx.frame_time > ctx.infection_time then
        ⟨{ moveReflect ctx.dist_to_move p with state := .Recovered },
          leavesCell cell { moveReflect ctx.dist_to_move p with state := .Recovered },
          1, -1, 1, 0⟩
      else
        ⟨{ moveReflect ctx.dist_to_move p with state := .Infected (t + ctx.frame_time) },
          leavesCell cell
            { moveReflect ctx.dist_to_move p with state := .Infected (t + ctx.frame_time) },
          1, 0, 0, 0⟩) := by
  simp only [personOutcome, h]

/-- The possible post-closure states of one person. -/
theorem personOutcome_state (ctx : StepCtx) (u : ℝ) (cell : ℤ × ℤ) (p : Person) :
    (personOutcome ctx u cell p).person.state = p.state ∨
    ∃ t, p.state = .Infected t ∧
      ((personOutcome ctx u cell p).person.state = .Dead ∨
       (personOutcome ctx u cell p).person.state = .Recovered ∨
       (personOutcome ctx u cell p).person.state = .Infected (t + ctx.frame_time)) := by
  cases h : p.state with
  | Healthy => left; rw [personOutcome_of_healthy ctx u cell p h]; exact h
  | Recovered => left; rw [personOutcome_of_recovered ctx u cell p h]; exact h
  | Dead => left; rw [personOutcome_of_dead ctx u cell p h]; exact h
  | Infected t =>
      right
      refine ⟨t, rfl, ?_⟩
      rw [personOutcome_of_infected ctx u cell p t h]
      split
      · left; rfl
      · split
        · right; left; rfl
        · right; right; rfl

theorem infectOutcome_of_healthy (ctx : StepCtx) (u : ℝ) (p : Person)
    (h : p.state = .Healthy) :
    infectOutcome ctx u p =
      (if u < 1 - ctx.not_infected_this_frame then
        ({ p with state := .Infected 0 }, true) else (p, false)) := by
  by_cases hu : u < 1 - ctx.not_infected_this_frame
  · simp only [infectOutcome, h, decide_eq_true hu, if_pos hu]
  · simp only [infectOutcome, h, decide_eq_false hu, if_neg hu]

theorem infectOutcome_of_not_healthy (ctx : StepCtx) (u : ℝ) (p : Person)
    (h : ¬ p.state = .Healthy) :
    infectOutcome ctx u p = (p, false) := by
  cases hs : p.state with
  | Healthy => exact absurd hs h
  | Infected t => simp only [infectOutcome, hs]
  | Recovered => simp only [infectOutcome, hs]
  | Dead => simp only [infectOutcome, hs]

/-- The possible post-infection-draw states of one person. -/
theorem infectOutcome_state (ctx : StepCtx) (u : ℝ) (p : Person) :
    (infectOutcome ctx u p).1 = p ∨
    (p.state = .Healthy ∧ (infectOutcome ctx u p).1.state = .Infected 0) := by
  by_cases h : p.state = .Healthy
  · rw [infectOutcome_of_healthy ctx u p h]
    split
    · right; exact ⟨h, rfl⟩
    · left; rfl
  · left; rw [infectOutcome_of_not_healthy ctx u p h]

/-! ## Membership lemmas tracing agents through one tick -/

theorem runExtract_stay_mem (ctx : StepCtx) (rng : ℕ → ℝ) (cell : ℤ × ℤ)
    (l : List Person) :
    ∀ (ms : MidState) (q : Person), q ∈ (runExtract ctx rng cell ms l).2 →
      ∃ p ∈ l, ∃ u, (personOutcome ctx u cell p).extracted = false ∧
        q = (personOutcome ctx u cell p).person := by
  induction l with
  | nil => intro ms q hq; simp [runExtract] at hq
  | cons p ps ih =>
      intro ms q hq
      simp only [runExtract] at hq
      cases he : (personOutcome ctx (rng ms.k) cell p).extracted with
      | true =>
          rw [he] at hq
          simp only [if_pos rfl] at hq
          obtain ⟨p', hp', hrest⟩ := ih _ q hq
          exact ⟨p', List.mem_cons_of_mem p hp', hrest⟩
      | false =>
          rw [he] at hq
          simp only [Bool.false_eq_true, if_neg (Bool.false_ne_true)] at hq
          rcases List.mem_cons.mp hq with hq | hq
          · exact ⟨p, List.mem_cons_self p ps, rng ms.k, he, hq⟩
          · obtain ⟨p', hp', hrest⟩ := ih _ q hq
            exact ⟨p', List.mem_cons_of_mem p hp', hrest⟩

theorem runExtract_moved_mem (ctx : StepCtx) (rng : ℕ → ℝ) (cell : ℤ × ℤ)
    (l : List Person) :
    ∀ (ms : MidState) (q : Person), q ∈ (runExtract ctx rng cell ms l).1.moved →
      q ∈ ms.moved ∨ ∃ p ∈ l, ∃ u, (personOutcome ctx u cell p).extracted = true ∧
        q = (personOutcome ctx u cell p).person := by
  induction l with
  | nil => intro ms q hq; simp [runExtract] at hq; exact Or.inl hq
  | cons p ps ih =>
      intro ms q hq
      simp only [runExtract] at hq
      rcases ih _ q hq with hq' | ⟨p', hp', u, hext, hqe⟩
      · cases he : (personOutcome ctx (rng ms.k) cell p).extracted with
        | true =>
            rw [he] at hq'
            simp at hq'
            rcases hq' with hq'' | hq''
            · exact Or.inl hq''
            · exact Or.inr ⟨p, List.mem_cons_self p ps, rng ms.k, he, hq''⟩
        | false =>
            rw [he] at hq'
            simp at hq'
            exact Or.inl hq'
      · exact Or.inr ⟨p', List.mem_cons_of_mem p hp', u, hext, hqe⟩

theorem runInfect_moved (ctx : StepCtx) (rng : ℕ → ℝ) (l : List Person) :
    ∀ ms : MidState, (runInfect ctx rng ms l).1.moved = ms.moved := by
  induction l with
  | nil => intro ms; rfl
  | cons p ps ih => intro ms; simp only [runInfect]; rw [ih]

theorem runInfect_mem (ctx : StepCtx) (rng : ℕ → ℝ) (l : List Person) :
    ∀ (ms : MidState) (q : Person), q ∈ (runInfect ctx rng ms l).2 →
      ∃ p ∈ l, ∃ u, q = (infectOutcome ctx u p).1 := by
  induction l with
  | nil => intro ms q hq; simp [runInfect] at hq
  | cons p ps ih =>
      intro ms q hq
      simp only [runInfect] at hq
      rcases List.mem_cons.mp hq with hq | hq
      · exact ⟨p, List.mem_cons_self p ps, rng ms.k, hq⟩
      · obtain ⟨p', hp', hrest⟩ := ih _ q hq
        exact ⟨p', List.mem_cons_of_mem p hp', hrest⟩

theorem infectPhase_moved (ctx : StepCtx) (rng : ℕ → ℝ) (ms : MidState)
    (l : List Person) : (infectPhase ctx rng ms l).1.moved = ms.moved := by
  unfold infectPhase
  split
  · exact runInfect_moved ctx rng l ms
  · rfl

theorem infectPhase_mem (ctx : StepCtx) (rng : ℕ → ℝ) (ms : MidState)
    (l : List Person) (q : Person) (hq : q ∈ (infectPhase ctx rng ms l).2) :
    ∃ p ∈ l, q = p ∨ ∃ u, q = (infectOutcome ctx u p).1 := by
  unfold infectPhase at hq
  split at hq
  · obtain ⟨p, hp, u, hu⟩ := runInfect_mem ctx rng l ms q hq
    exact ⟨p, hp, Or.inr ⟨u, hu⟩⟩
  · exact ⟨q, hq, Or.inl rfl⟩

theorem runCell_mem (ctx : StepCtx) (rng : ℕ → ℝ) (ms : MidState)
    (cell : ℤ × ℤ) (people : List Person) (q : Person)
    (hq : q ∈ (runCell ctx rng ms cell people).2) :
    ∃ p ∈ people, tickRel ctx p q := by
  unfold runCell at hq
  obtain ⟨p', hp', hq'⟩ := infectPhase_mem ctx rng _ _ q hq
  obtain ⟨p, hp, u, _, hpe⟩ := runExtract_stay_mem ctx rng cell people _ p' hp'
  refine ⟨p, hp, u, cell, ?_⟩
  rcases hq' with hq' | ⟨v, hv⟩
  · exact Or.inl (hq'.trans hpe)
  · exact Or.inr ⟨v, by rw [hv, hpe]⟩

theorem runCell_moved_mem (ctx : StepCtx) (rng : ℕ → ℝ) (ms : MidState)
    (cell : ℤ × ℤ) (people : List Person) (q : Person)
    (hq : q ∈ (runCell ctx rng ms cell people).1.moved) :
    q ∈ ms.moved ∨ ∃ p ∈ people, ∃ u,
      (personOutcome ctx u cell p).extracted = true ∧
      q = (personOutcome ctx u cell p).person := by
  unfold runCell at hq
  rw [infectPhase_moved] at hq
  exact runExtract_moved_mem ctx rng cell people ms q hq

theorem gridPersons_cons (cell : ℤ × ℤ) (ps : List Person) (g : GridMap) :
    gridPersons ((cell, ps) :: g) = ps ++ gridPersons g := rfl

theorem runGrid_mem (ctx : StepCtx) (rng : ℕ → ℝ) (g : GridMap) :
    ∀ (ms : MidState) (q : Person),
      q ∈ gridPersons (runGrid ctx rng ms g).2 →
      ∃ p ∈ gridPersons g, tickRel ctx p q := by
  induction g with
  | nil => intro ms q hq; simp [runGrid, gridPersons] at hq
  | cons c rest ih =>
      intro ms q hq
      obtain ⟨cell, people⟩ := c
      simp only [runGrid] at hq
      rw [gridPersons_cons] at hq
      rw [gridPersons_cons]
      rcases List.mem_append.mp hq with hq | hq
      · obtain ⟨p, hp, hrel⟩ := runCell_mem ctx rng ms cell people q hq
        exact ⟨p, List.mem_append.mpr (Or.inl hp), hrel⟩
      · obtain ⟨p, hp, hrel⟩ := ih _ q hq
        exact ⟨p, List.mem_append.mpr (Or.inr hp), hrel⟩

theorem runGrid_moved_mem (ctx : StepCtx) (rng : ℕ → ℝ) (g : GridMap) :
    ∀ (ms : MidState) (q : Person), q ∈ (runGrid ctx rng ms g).1.moved →
      q ∈ ms.moved ∨ ∃ p ∈ gridPersons g, ∃ u cell,
        (personOutcome ctx u cell p).extracted = true ∧
        q = (personOutcome ctx u cell p).person := by
  induction g with
  | nil => intro ms q hq; exact Or.inl hq
  | cons c rest ih =>
      intro ms q hq
      obtain ⟨cell, people⟩ := c
      simp only [runGrid] at hq
      rcases ih _ q hq with hq' | ⟨p, hp, u, cl, hext, hqe⟩
      · rcases runCell_moved_mem ctx rng ms cell people q hq' with hq'' | ⟨p, hp, u, hext, hqe⟩
        · exact Or.inl hq''
        · exact Or.inr ⟨p, by rw [gridPersons_cons]; exact List.mem_append.mpr (Or.inl hp),
            u, cell, hext, hqe⟩
      · exact Or.inr ⟨p, by rw [gridPersons_cons]; exact List.mem_append.mpr (Or.inr hp),
          u, cl, hext, hqe⟩

theorem gridPush_mem (g : GridMap) (key : ℤ × ℤ) (p : Person) (q : Person)
    (hq : q ∈ gridPersons (gridPush g key p)) : q ∈ gridPersons g ∨ q = p := by
  induction g with
  | nil =>
      simp only [gridPush, gridPersons, List.append_nil] at hq
      exact Or.inr (List.mem_singleton.mp hq)
  | cons c rest ih =>
      obtain ⟨k, ps⟩ := c
      simp only [gridPush] at hq
      by_cases hk : k = key
      · rw [if_pos hk] at hq
        rw [gridPersons_cons, List.append_assoc] at hq
        rcases List.mem_append.mp hq with hq | hq
        · exact Or.inl (by rw [gridPersons_cons]; exact List.mem_append.mpr (Or.inl hq))
        · rcases List.mem_append.mp hq with hq | hq
          · exact Or.inr (List.mem_singleton.mp hq)
          · exact Or.inl (by rw [gridPersons_cons]; exact List.mem_append.mpr (Or.inr hq))
      · rw [if_neg hk] at hq
        rw [gridPersons_cons] at hq
        rcases List.mem_append.mp hq with hq | hq
        · exact Or.inl (by rw [gridPersons_cons]; exact List.mem_append.mpr (Or.inl hq))
        · rcases ih hq with hq' | hq'
          · exact Or.inl (by rw [gridPersons_cons]; exact List.mem_append.mpr (Or.inr hq'))
          · exact Or.inr hq'

theorem reinsertPerson_mem (g : GridMap) (p q : Person)
    (hq : q ∈ gridPersons (reinsertPerson g p)) : q ∈ gridPersons g ∨ q = p := by
  unfold reinsertPerson at hq
  split at hq
  · exact Or.inl hq
  · exact gridPush_mem g _ p q hq

theorem reinsertAll_mem (ps : List Person) :
    ∀ (g : GridMap) (q : Person), q ∈ gridPersons (reinsertAll g ps) →
      q ∈ gridPersons g ∨ q ∈ ps := by
  induction ps with
  | nil => intro g q hq; exact Or.inl hq
  | cons p rest ih =>
      intro g q hq
      rcases ih _ q hq with hq' | hq'
      · rcases reinsertPerson_mem g p q hq' with hq'' | hq''
        · exact Or.inl hq''
        · exact Or.inr (by rw [hq'']; exact List.mem_cons_self p rest)
      · exact Or.inr (List.mem_cons_of_mem p hq')

/-- Every agent in the post-tick grid arose from an agent of the pre-tick
grid through the movement/health closure, possibly followed by the
infection draw of its cell. -/
theorem step_ancestor (rng : ℕ → ℝ) (e : ℝ) (s : Pandemic) (q : Person)
    (hq : q ∈ gridPersons (Pandemic.step rng e s).grid) :
    ∃ p ∈ gridPersons s.grid, tickRel (mkStepCtx s e) p q := by
  simp only [Pandemic.step] at hq
  rcases reinsertAll_mem _ _ q hq with hq' | hq'
  · exact runGrid_mem _ rng s.grid _ q hq'
  · rcases runGrid_moved_mem _ rng s.grid _ q hq' with h0 | ⟨p, hp, u, cell, _, hqe⟩
    · simp at h0
    · exact ⟨p, hp, u, cell, Or.inl hqe⟩

/-! ## State-transition lemmas -/

theorem personOutcome_state_of_healthy (ctx : StepCtx) (u : ℝ) (cell : ℤ × ℤ)
    (p : Person) (h : p.state = .Healthy) :
    (personOutcome ctx u cell p).person.state = .Healthy := by
  rw [personOutcome_of_healthy ctx u cell p h]; exact h

theorem personOutcome_state_of_recovered (ctx : StepCtx) (u : ℝ) (cell : ℤ × ℤ)
    (p : Person) (h : p.state = .Recovered) :
    (personOutcome ctx u cell p).person.state = .Recovered := by
  rw [personOutcome_of_recovered ctx u cell p h]; exact h

theorem personOutcome_state_of_dead (ctx : StepCtx) (u : ℝ) (cell : ℤ × ℤ)
    (p : Person) (h : p.state = .Dead) :
    (personOutcome ctx u cell p).person.state = .Dead := by
  rw [personOutcome_of_dead ctx u cell p h]; exact h

theorem personOutcome_state_of_infected (ctx : StepCtx) (u : ℝ) (cell : ℤ × ℤ)
    (p : Person) (t : ℝ) (h : p.state = .Infected t) :
    (personOutcome ctx u cell p).person.state = .Dead ∨
    (personOutcome ctx u cell p).person.state = .Recovered ∨
    (personOutcome ctx u cell p).person.state = .Infected (t + ctx.frame_time) := by
  rw [personOutcome_of_infected ctx u cell p t h]
  split
  · left; rfl
  · split
    · right; left; rfl
    · right; right; rfl

/-- Conversion from the concrete one-tick relation to the abstract legal
transition relation. -/
theorem tickRel_legal (ctx : StepCtx) (p q : Person) (h : tickRel ctx p q) :
    LegalTick ctx.frame_time p.state q.state := by
  obtain ⟨u, cell, hq | ⟨v, hq⟩⟩ := h
  · cases hs : p.state with
    | Healthy =>
        rw [hq, personOutcome_state_of_healthy ctx u cell p hs]
        exact .healthy_stays
    | Recovered =>
        rw [hq, personOutcome_state_of_recovered ctx u cell p hs]
        exact .recovered_stays
    | Dead =>
        rw [hq, personOutcome_state_of_dead ctx u cell p hs]
        exact .dead_stays
    | Infected t =>
        rcases personOutcome_state_of_infected ctx u cell p t hs with h1 | h1 | h1 <;>
          rw [hq, h1]
        · exact .die t
        · exact .recover t
        · exact .advance t
  · cases hs : p.state with
    | Healthy =>
        have h1 := personOutcome_state_of_healthy ctx u cell p hs
        rcases infectOutcome_state ctx v (personOutcome ctx u cell p).person with h2 | ⟨_, h2⟩
        · rw [hq, h2, h1]; exact .healthy_stays
        · rw [hq, h2]; exact .infect
    | Recovered =>
        have h1 := personOutcome_state_of_recovered ctx u cell p hs
        rw [hq, infectOutcome_of_not_healthy ctx v _ (by rw [h1]; intro hc; cases hc), h1]
        exact .recovered_stays
    | Dead =>
        have h1 := personOutcome_state_of_dead ctx u cell p hs
        rw [hq, infectOutcome_of_not_healthy ctx v _ (by rw [h1]; intro hc; cases hc), h1]
        exact .dead_stays
    | Infected t =>
        rcases personOutcome_state_of_infected ctx u cell p t hs with h1 | h1 | h1 <;>
          rw [hq, infectOutcome_of_not_healthy ctx v _ (by rw [h1]; intro hc; cases hc), h1]
        · exact .die t
        · exact .recover t
        · exact .advance t

/-! ## Counting lemmas -/

theorem personOutcome_delta_sum (ctx : StepCtx) (u : ℝ) (cell : ℤ × ℤ) (p : Person) :
    (personOutcome ctx u cell p).dInf + (personOutcome ctx u cell p).dRec +
      (personOutcome ctx u cell p).dDead = 0 := by
  cases hs : p.state with
  | Healthy => rw [personOutcome_of_healthy ctx u cell p hs]; simp
  | Recovered => rw [personOutcome_of_recovered ctx u cell p hs]; simp
  | Dead => rw [personOutcome_of_dead ctx u cell p hs]; simp
  | Infected t =>
      rw [personOutcome_of_infected ctx u cell p t hs]
      split
      · norm_num
      · split <;> norm_num

theorem runExtract_sum (ctx : StepCtx) (rng : ℕ → ℝ) (cell : ℤ × ℤ)
    (l : List Person) :
    ∀ ms : MidState, msSum (runExtract ctx rng cell ms l).1 = msSum ms := by
  induction l with
  | nil => intro ms; rfl
  | cons p ps ih =>
      intro ms
      have hd := personOutcome_delta_sum ctx (rng ms.k) cell p
      simp only [runExtract]
      rw [ih]
      simp only [msSum]
      linarith

theorem runInfect_sum (ctx : StepCtx) (rng : ℕ → ℝ) (l : List Person) :
    ∀ ms : MidState, msSum (runInfect ctx rng ms l).1 = msSum ms := by
  induction l with
  | nil => intro ms; rfl
  | cons p ps ih =>
      intro ms
      simp only [runInfect]
      rw [ih]
      cases hb : (infectOutcome ctx (rng ms.k) p).2 <;> simp [msSum, hb]

theorem runCell_sum (ctx : StepCtx) (rng : ℕ → ℝ) (ms : MidState)
    (cell : ℤ × ℤ) (people : List Person) :
    msSum (runCell ctx rng ms cell people).1 = msSum ms := by
  simp only [runCell, infectPhase]
  split
  · rw [runInfect_sum, runExtract_sum]
  · rw [runExtract_sum]

theorem runGrid_sum (ctx : StepCtx) (rng : ℕ → ℝ) (g : GridMap) :
    ∀ ms : MidState, msSum (runGrid ctx rng ms g).1 = msSum ms := by
  induction g with
  | nil => intro ms; rfl
  | cons c rest ih =>
      intro ms
      obtain ⟨cell, people⟩ := c
      simp only [runGrid]
      rw [ih, runCell_sum]

/-- One tick preserves the sum of the four aggregate counters. -/
theorem step_countsSum (rng : ℕ → ℝ) (e : ℝ) (s : Pandemic) :
    countsSum (Pandemic.step rng e s) = countsSum s := by
  simp only [Pandemic.step, countsSum]
  exact runGrid_sum _ rng s.grid _

theorem runSteps_countsSum (ticks : List ((ℕ → ℝ) × ℝ)) :
    ∀ s : Pandemic, countsSum (runSteps s ticks) = countsSum s := by
  induction ticks with
  | nil => intro s; rfl
  | cons tk rest ih =>
      intro s
      show countsSum (runSteps (Pandemic.step tk.1 tk.2 s) rest) = countsSum s
      rw [ih, step_countsSum]

theorem countLive_cons (p : Person) (ps : List Person) :
    countLive (p :: ps) = countLive ps + if p.state.isDead then 0 else 1 := by
  unfold countLive
  rw [List.countP_cons]
  cases h : p.state.isDead <;> simp [h]

theorem countLive_append_single (ps : List Person) (p : Person) :
    countLive (ps ++ [p]) = countLive ps + if p.state.isDead then 0 else 1 := by
  unfold countLive
  rw [List.countP_append]
  cases h : p.state.isDead <;> simp [h, List.countP_cons]

/-- Death bookkeeping of one closure call, for a live input: a death sets
`extracted` and `dDead = 1`; a survivor has `dDead = 0`. -/
theorem personOutcome_death_flags (ctx : StepCtx) (u : ℝ) (cell : ℤ × ℤ)
    (p : Person) (h : p.state.isDead = false) :
    ((personOutcome ctx u cell p).person.state.isDead = true →
      (personOutcome ctx u cell p).extracted = true ∧
      (personOutcome ctx u cell p).dDead = 1) ∧
    ((personOutcome ctx u cell p).person.state.isDead = false →
      (personOutcome ctx u cell p).dDead = 0) := by
  cases hs : p.state with
  | Healthy =>
      have h1 := personOutcome_state_of_healthy ctx u cell p hs
      constructor
      · intro hdead; rw [h1] at hdead; simp [InfectionState.isDead] at hdead
      · intro _; rw [personOutcome_of_healthy ctx u cell p hs]
  | Recovered =>
      have h1 := personOutcome_state_of_recovered ctx u cell p hs
      constructor
      · intro hdead; rw [h1] at hdead; simp [InfectionState.isDead] at hdead
      · intro _; rw [personOutcome_of_recovered ctx u cell p hs]
  | Dead => rw [hs] at h; cases h
  | Infected t =>
      rw [personOutcome_of_infected ctx u cell p t hs]
      split
      · exact ⟨fun _ => ⟨rfl, rfl⟩, fun hc => by cases hc⟩
      · split
        · exact ⟨fun hc => (by cases hc), fun _ => rfl⟩
        · exact ⟨fun hc => (by cases hc), fun _ => rfl⟩

/-- A live input that is not extracted is still alive after the closure. -/
theorem personOutcome_stay_notDead (ctx : StepCtx) (u : ℝ) (cell : ℤ × ℤ)
    (p : Person) (h : p.state.isDead = false)
    (he : (personOutcome ctx u cell p).extracted = false) :
    (personOutcome ctx u cell p).person.state.isDead = false := by
  cases hdead : (personOutcome ctx u cell p).person.state.isDead with
  | true =>
      have := ((personOutcome_death_flags ctx u cell p h).1 hdead).1
      rw [this] at he
      cases he
  | false => rfl

theorem runExtract_dead_count (ctx : StepCtx) (rng : ℕ → ℝ) (cell : ℤ × ℤ)
    (l : List Person) :
    ∀ ms : MidState, (∀ p ∈ l, p.state.isDead = false) →
      (runExtract ctx rng cell ms l).1.num_dead
        + (countLive (runExtract ctx rng cell ms l).1.moved : ℤ)
        + ((runExtract ctx rng cell ms l).2.length : ℤ)
      = ms.num_dead + (countLive ms.moved : ℤ) + (l.length : ℤ) := by
  induction l with
  | nil => intro ms _; simp [runExtract]
  | cons p ps ih =>
      intro ms hl
      have hp := hl p (List.mem_cons_self p ps)
      have hps : ∀ q ∈ ps, q.state.isDead = false :=
        fun q hq => hl q (List.mem_cons_of_mem p hq)
      have hflags := personOutcome_death_flags ctx (rng ms.k) cell p hp
      simp only [runExtract]
      cases he : (personOutcome ctx (rng ms.k) cell p).extracted with
      | true =>
          simp only [he, eq_self_iff_true, if_true, List.length_cons]
          rw [ih _ hps]
          simp only
          rw [countLive_append_single]
          cases hdead : (personOutcome ctx (rng ms.k) cell p).person.state.isDead with
          | true =>
              rw [(hflags.1 hdead).2]
              simp only [hdead, eq_self_iff_true, if_true]
              push_cast
              ring
          | false =>
              rw [hflags.2 hdead]
              simp only [hdead, Bool.false_eq_true, if_false]
              push_cast
              ring
      | false =>
          have hdead := personOutcome_stay_notDead ctx (rng ms.k) cell p hp he
          simp only [he, Bool.false_eq_true, if_false, List.length_cons]
          have h2 := ih
            { num_healthy := ms.num_healthy
              num_infected := ms.num_infected + (personOutcome ctx (rng ms.k) cell p).dInf
              num_recovered := ms.num_recovered + (personOutcome ctx (rng ms.k) cell p).dRec
              num_dead := ms.num_dead + (personOutcome ctx (rng ms.k) cell p).dDead
              k := ms.k + (personOutcome ctx (rng ms.k) cell p).draws
              moved := ms.moved } hps
          simp only at h2
          have h3 := hflags.2 hdead
          push_cast
          linarith

theorem runExtract_stay_noDead (ctx : StepCtx) (rng : ℕ → ℝ) (cell : ℤ × ℤ)
    (l : List Person) (ms : MidState) (hl : ∀ p ∈ l, p.state.isDead = false) :
    ∀ q ∈ (runExtract ctx rng cell ms l).2, q.state.isDead = false := by
  intro q hq
  obtain ⟨p, hp, u, hext, hqe⟩ := runExtract_stay_mem ctx rng cell l ms q hq
  rw [hqe]
  exact personOutcome_stay_notDead ctx u cell p (hl p hp) hext

theorem runInfect_num_dead (ctx : StepCtx) (rng : ℕ → ℝ) (l : List Person) :
    ∀ ms : MidState, (runInfect ctx rng ms l).1.num_dead = ms.num_dead := by
  induction l with
  | nil => intro ms; rfl
  | cons p ps ih => intro ms; simp only [runInfect]; rw [ih]

theorem runInfect_length (ctx : StepCtx) (rng : ℕ → ℝ) (l : List Person) :
    ∀ ms : MidState, (runInfect ctx rng ms l).2.length = l.length := by
  induction l with
  | nil => intro ms; rfl
  | cons p ps ih => intro ms; simp only [runInfect, List.length_cons]; rw [ih]

theorem runInfect_noDead (ctx : StepCtx) (rng : ℕ → ℝ) (l : List Person)
    (ms : MidState) (hl : ∀ p ∈ l, p.state.isDead = false) :
    ∀ q ∈ (runInfect ctx rng ms l).2, q.state.isDead = false := by
  intro q hq
  obtain ⟨p, hp, u, hqe⟩ := runInfect_mem ctx rng l ms q hq
  rcases infectOutcome_state ctx u p with h1 | ⟨_, h1⟩
  · rw [hqe, h1]; exact hl p hp
  · rw [hqe]
    cases hd : (infectOutcome ctx u p).1.state.isDead with
    | true => rw [h1] at hd; cases hd
    | false => rfl

theorem infectPhase_num_dead (ctx : StepCtx) (rng : ℕ → ℝ) (ms : MidState)
    (l : List Person) : (infectPhase ctx rng ms l).1.num_dead = ms.num_dead := by
  unfold infectPhase
  split
  · exact runInfect_num_dead ctx rng l ms
  · rfl

theorem infectPhase_length (ctx : StepCtx) (rng : ℕ → ℝ) (ms : MidState)
    (l : List Person) : (infectPhase ctx rng ms l).2.length = l.length := by
  unfold infectPhase
  split
  · exact runInfect_length ctx rng l ms
  · rfl

theorem infectPhase_noDead (ctx : StepCtx) (rng : ℕ → ℝ) (ms : MidState)
    (l : List Person) (hl : ∀ p ∈ l, p.state.isDead = false) :
    ∀ q ∈ (infectPhase ctx rng ms l).2, q.state.isDead = false := by
  unfold infectPhase
  split
  · exact runInfect_noDead ctx rng l ms hl
  · exact hl

theorem runCell_dead_count (ctx : StepCtx) (rng : ℕ → ℝ) (ms : MidState)
    (cell : ℤ × ℤ) (people : List Person)
    (hl : ∀ p ∈ people, p.state.isDead = false) :
    (runCell ctx rng ms cell people).1.num_dead
      + (countLive (runCell ctx rng ms cell people).1.moved : ℤ)
      + ((runCell ctx rng ms cell people).2.length : ℤ)
    = ms.num_dead + (countLive ms.moved : ℤ) + (people.length : ℤ) := by
  unfold runCell
  rw [infectPhase_num_dead, infectPhase_moved, infectPhase_length]
  exact runExtract_dead_count ctx rng cell people ms hl

theorem runCell_noDead (ctx : StepCtx) (rng : ℕ → ℝ) (ms : MidState)
    (cell : ℤ × ℤ) (people : List Person)
    (hl : ∀ p ∈ people, p.state.isDead = false) :
    ∀ q ∈ (runCell ctx rng ms cell people).2, q.state.isDead = false := by
  unfold runCell
  exact infectPhase_noDead ctx rng _ _ (runExtract_stay_noDead ctx rng cell people ms hl)

theorem gridNoDead_cons (cell : ℤ × ℤ) (people : List Person) (g : GridMap) :
    gridNoDead ((cell, people) :: g) ↔
      (∀ p ∈ people, p.state.isDead = false) ∧ gridNoDead g := by
  unfold gridNoDead
  rw [gridPersons_cons]
  constructor
  · intro h
    exact ⟨fun p hp => h p (List.mem_append.mpr (Or.inl hp)),
      fun p hp => h p (List.mem_append.mpr (Or.inr hp))⟩
  · intro h p hp
    rcases List.mem_append.mp hp with hp | hp
    · exact h.1 p hp
    · exact h.2 p hp

theorem runGrid_dead_count (ctx : StepCtx) (rng : ℕ → ℝ) (g : GridMap) :
    ∀ ms : MidState, gridNoDead g →
      (runGrid ctx rng ms g).1.num_dead
        + (countLive (runGrid ctx rng ms g).1.moved : ℤ)
        + ((gridPersons (runGrid ctx rng ms g).2).length : ℤ)
      = ms.num_dead + (countLive ms.moved : ℤ) + ((gridPersons g).length : ℤ) := by
  induction g with
  | nil => intro ms _; simp [runGrid, gridPersons]
  | cons c rest ih =>
      intro ms hg
      obtain ⟨cell, people⟩ := c
      rw [gridNoDead_cons] at hg
      simp only [runGrid, gridPersons_cons, List.length_append]
      have h1 := runCell_dead_count ctx rng ms cell people hg.1
      have h2 := ih (runCell ctx rng ms cell people).1 hg.2
      push_cast
      push_cast at h1 h2
      linarith

theorem runGrid_noDead (ctx : StepCtx) (rng : ℕ → ℝ) (g : GridMap) :
    ∀ ms : MidState, gridNoDead g →
      ∀ q ∈ gridPersons (runGrid ctx rng ms g).2, q.state.isDead = false := by
  induction g with
  | nil => intro ms _ q hq; simp [runGrid, gridPersons] at hq
  | cons c rest ih =>
      intro ms hg q hq
      obtain ⟨cell, people⟩ := c
      rw [gridNoDead_cons] at hg
      simp only [runGrid, gridPersons_cons] at hq
      rcases List.mem_append.mp hq with hq | hq
      · exact runCell_noDead ctx rng ms cell people hg.1 q hq
      · exact ih _ hg.2 q hq

theorem gridPersons_gridPush_length (g : GridMap) (key : ℤ × ℤ) (p : Person) :
    (gridPersons (gridPush g key p)).length = (gridPersons g).length + 1 := by
  induction g with
  | nil => rfl
  | cons c rest ih =>
      obtain ⟨k, ps⟩ := c
      simp only [gridPush]
      by_cases hk : k = key
      · rw [if_pos hk]
        simp [gridPersons_cons]
        omega
      · rw [if_neg hk]
        simp only [gridPersons_cons, List.length_append, ih]
        omega

theorem reinsertAll_length (ps : List Person) :
    ∀ g : GridMap, (gridPersons (reinsertAll g ps)).length
      = (gridPersons g).length + countLive ps := by
  induction ps with
  | nil => intro g; simp [reinsertAll, countLive]
  | cons p rest ih =>
      intro g
      show (gridPersons (reinsertAll (reinsertPerson g p) rest)).length = _
      rw [ih, countLive_cons]
      unfold reinsertPerson
      cases hd : p.state.isDead with
      | true => simp [hd]
      | false => simp [hd, gridPersons_gridPush_length]; omega

theorem reinsertAll_noDead (ps : List Person) :
    ∀ g : GridMap, gridNoDead g → gridNoDead (reinsertAll g ps) := by
  induction ps with
  | nil => intro g hg; exact hg
  | cons p rest ih =>
      intro g hg
      show gridNoDead (reinsertAll (reinsertPerson g p) rest)
      refine ih _ ?_
      intro q hq
      unfold reinsertPerson at hq
      split at hq
      · exact hg q hq
      · rcases gridPush_mem g _ p q hq with hq' | hq'
        · exact hg q hq'
        · rename_i hpd
          rw [hq']
          exact Bool.not_eq_true _ ▸ (by simpa using hpd)

/-! ## Step-level invariants -/

/-- If the grid holds no dead agent before a tick, it holds none after. -/
theorem step_noDead (rng : ℕ → ℝ) (e : ℝ) (s : Pandemic)
    (hnd : gridNoDead s.grid) : gridNoDead (Pandemic.step rng e s).grid := by
  simp only [Pandemic.step]
  exact reinsertAll_noDead _ _
    (runGrid_noDead (mkStepCtx s e) rng s.grid
      ⟨s.num_healthy, s.num_infected, s.num_recovered, s.num_dead, 0, []⟩ hnd)

/-- One tick moves exactly the tick's deaths from the grid population into
the dead counter: their sum is invariant. -/
theorem step_dead_population (rng : ℕ → ℝ) (e : ℝ) (s : Pandemic)
    (hnd : gridNoDead s.grid) :
    (Pandemic.step rng e s).num_dead
        + ((gridPersons (Pandemic.step rng e s).grid).length : ℤ)
      = s.num_dead + ((gridPersons s.grid).length : ℤ) := by
  simp only [Pandemic.step]
  rw [reinsertAll_length]
  have h1 := runGrid_dead_count (mkStepCtx s e) rng s.grid
    ⟨s.num_healthy, s.num_infected, s.num_recovered, s.num_dead, 0, []⟩ hnd
  have h0 : countLive ([] : List Person) = 0 := rfl
  simp only [h0] at h1
  push_cast
  push_cast at h1
  linarith

/-- The tick appends exactly one snapshot: the accumulated (unscaled) elapsed
time together with the tick's final aggregate counters. -/
theorem step_stats_eq (rng : ℕ → ℝ) (e : ℝ) (s : Pandemic) :
    (Pandemic.step rng e s).stats = s.stats ++
      [⟨s.time_elapsed + e,
        (Pandemic.step rng e s).num_healthy, (Pandemic.step rng e s).num_infected,
        (Pandemic.step rng e s).num_recovered, (Pandemic.step rng e s).num_dead⟩] := rfl

theorem step_time_elapsed (rng : ℕ → ℝ) (e : ℝ) (s : Pandemic) :
    (Pandemic.step rng e s).time_elapsed = s.time_elapsed + e := rfl

/-! ## Position lemmas -/

theorem personOutcome_pos (ctx : StepCtx) (u : ℝ) (cell : ℤ × ℤ) (p : Person) :
    (personOutcome ctx u cell p).person.x = (moveReflect ctx.dist_to_move p).x ∧
    (personOutcome ctx u cell p).person.y = (moveReflect ctx.dist_to_move p).y := by
  cases hs : p.state with
  | Healthy => rw [personOutcome_of_healthy ctx u cell p hs]; exact ⟨rfl, rfl⟩
  | Recovered => rw [personOutcome_of_recovered ctx u cell p hs]; exact ⟨rfl, rfl⟩
  | Dead => rw [personOutcome_of_dead ctx u cell p hs]; exact ⟨rfl, rfl⟩
  | Infected t =>
      rw [personOutcome_of_infected ctx u cell p t hs]
      split
      · exact ⟨rfl, rfl⟩
      · split
        · exact ⟨rfl, rfl⟩
        · exact ⟨rfl, rfl⟩

theorem infectOutcome_pos (ctx : StepCtx) (u : ℝ) (p : Person) :
    (infectOutcome ctx u p).1.x = p.x ∧ (infectOutcome ctx u p).1.y = p.y := by
  by_cases h : p.state = .Healthy
  · rw [infectOutcome_of_healthy ctx u p h]
    split
    · exact ⟨rfl, rfl⟩
    · exact ⟨rfl, rfl⟩
  · rw [infectOutcome_of_not_healthy ctx u p h]
    exact ⟨rfl, rfl⟩

/-- Single-pass per-axis reflection keeps an agent inside the domain provided
the frame's travel distance does not exceed either domain extent. -/
theorem moveReflect_inDomain (dist : ℝ) (p : Person) (hd0 : 0 ≤ dist)
    (hdx : dist ≤ X_MAX_FLOAT) (hdy : dist ≤ Y_MAX_FLOAT) (hp : inDomain p) :
    inDomain (moveReflect dist p) := by
  obtain ⟨hpx0, hpx1, hpy0, hpy1⟩ := hp
  have hs1 : Real.sin p.direction ≤ 1 := Real.sin_le_one _
  have hs2 : -1 ≤ Real.sin p.direction := Real.neg_one_le_sin _
  have hc1 : Real.cos p.direction ≤ 1 := Real.cos_le_one _
  have hc2 : -1 ≤ Real.cos p.direction := Real.neg_one_le_cos _
  have hms1 : dist * Real.sin p.direction ≤ dist := by nlinarith
  have hms2 : -dist ≤ dist * Real.sin p.direction := by nlinarith
  have hmc1 : dist * Real.cos p.direction ≤ dist := by nlinarith
  have hmc2 : -dist ≤ dist * Real.cos p.direction := by nlinarith
  have hX : (0 : ℝ) < X_MAX_FLOAT := by norm_num [X_MAX_FLOAT]
  have hY : (0 : ℝ) < Y_MAX_FLOAT := by norm_num [Y_MAX_FLOAT]
  unfold moveReflect inDomain
  simp only
  constructor
  · split_ifs with h1 h2 <;> simp only <;> linarith
  constructor
  · split_ifs with h1 h2 <;> simp only <;> linarith
  constructor
  · split_ifs with h1 h2 <;> simp only <;> linarith
  · split_ifs with h1 h2 <;> simp only <;> linarith

/-! ## Concrete single-agent evaluations -/

theorem runExtract_one (ctx : StepCtx) (rng : ℕ → ℝ) (cell : ℤ × ℤ)
    (ms : MidState) (p : Person) :
    runExtract ctx rng cell ms [p] =
      ({ ms with
          num_infected := ms.num_infected + (personOutcome ctx (rng ms.k) cell p).dInf
          num_recovered := ms.num_recovered + (personOutcome ctx (rng ms.k) cell p).dRec
          num_dead := ms.num_dead + (personOutcome ctx (rng ms.k) cell p).dDead
          k := ms.k + (personOutcome ctx (rng ms.k) cell p).draws
          moved := if (personOutcome ctx (rng ms.k) cell p).extracted then
              ms.moved ++ [(personOutcome ctx (rng ms.k) cell p).person]
            else ms.moved },
        if (personOutcome ctx (rng ms.k) cell p).extracted then []
        else [(personOutcome ctx (rng ms.k) cell p).person]) := rfl

theorem runGrid_one (ctx : StepCtx) (rng : ℕ → ℝ) (ms : MidState)
    (cell : ℤ × ℤ) (people : List Person) :
    runGrid ctx rng ms [(cell, people)] =
      ((runCell ctx rng ms cell people).1,
        [(cell, (runCell ctx rng ms cell people).2)]) := rfl

theorem reinsertAll_nil (g : GridMap) : reinsertAll g [] = g := rfl

theorem floor_three_halves : (⌊(3 / 2 : ℝ)⌋ : ℤ) = 1 := by
  rw [Int.floor_eq_iff] <;> norm_num

theorem floor_six_fifths : (⌊(6 / 5 : ℝ)⌋ : ℤ) = 1 := by
  rw [Int.floor_eq_iff] <;> norm_num

theorem leavesCell_sampleRecovered : leavesCell (1, 1) sampleRecovered = false := by
  simp [leavesCell, asI32, sampleRecovered, floor_three_halves, floor_six_fifths]
  norm_num [floor_three_halves, floor_six_fifths]

theorem moveReflect_sampleRecovered :
    moveReflect (mkStepCtx sampleState 0).dist_to_move sampleRecovered
      = sampleRecovered := by
  norm_num [moveReflect, mkStepCtx, sampleState, sampleRecovered, MOVE_AMOUNT,
    X_MAX_FLOAT, Y_MAX_FLOAT]

theorem sampleStep_grid :
    (Pandemic.step rngOne 0 sampleState).grid = [((1, 1), [sampleRecovered])] := by
  have hout : ∀ u : ℝ, personOutcome (mkStepCtx sampleState 0) u (1, 1) sampleRecovered
      = ⟨sampleRecovered, false, 0, 0, 0, 0⟩ := by
    intro u
    rw [personOutcome_of_recovered _ _ _ _ rfl, moveReflect_sampleRecovered,
      leavesCell_sampleRecovered]
  simp only [Pandemic.step]
  have hgrid : sampleState.grid = [((1, 1), [sampleRecovered])] := rfl
  rw [hgrid, runGrid_one]
  simp only [runCell, runExtract_one, hout]
  simp only [infectPhase, InfectionState.isInfected, sampleRecovered]
  simp [reinsertAll, sampleRecovered]

theorem moveReflect_sampleInfected :
    moveReflect (mkStepCtx infectedState 0).dist_to_move sampleInfected
      = sampleInfected := by
  norm_num [moveReflect, mkStepCtx, infectedState, sampleState, sampleInfected,
    MOVE_AMOUNT, X_MAX_FLOAT, Y_MAX_FLOAT]

theorem leavesCell_sampleInfected : leavesCell (1, 1) sampleInfected = false := by
  simp [leavesCell, asI32, sampleInfected, floor_three_halves, floor_six_fifths]
  norm_num [floor_three_halves, floor_six_fifths]

theorem sampleInfected_outcome :
    personOutcome (mkStepCtx infectedState 0) 1 (1, 1) sampleInfected
      = ⟨sampleInfected, false, 1, 0, 0, 0⟩ := by
  have hsurv : (mkStepCtx infectedState 0).survive_this_frame = 1 := by
    simp only [mkStepCtx]
    norm_num [infectedState, sampleState, Real.rpow_zero]
  have hframe : (mkStepCtx infectedState 0).frame_time = 0 := by
    simp only [mkStepCtx]
    norm_num [infectedState, sampleState]
  have htime : (mkStepCtx infectedState 0).infection_time = 14000 := by
    simp only [mkStepCtx]
    norm_num [infectedState, sampleState]
  rw [personOutcome_of_infected _ 1 (1, 1) sampleInfected 0 rfl]
  rw [hsurv, hframe, htime]
  rw [if_neg (by norm_num), if_neg (by norm_num)]
  rw [moveReflect_sampleInfected]
  have hp2 : ({ sampleInfected with state := .Infected (0 + 0) } : Person)
      = sampleInfected := by
    simp [sampleInfected]
  rw [hp2, leavesCell_sampleInfected]

theorem infect_sampleInfected (ctx : StepCtx) (u : ℝ) :
    infectOutcome ctx u ⟨3 / 2, 6 / 5, 0, .Infected 0⟩
      = (⟨3 / 2, 6 / 5, 0, .Infected 0⟩, false) :=
  infectOutcome_of_not_healthy ctx u ⟨3 / 2, 6 / 5, 0, .Infected 0⟩
    (by intro h; cases h)

theorem infectedStep_grid :
    (Pandemic.step rngOne 0 infectedState).grid = [((1, 1), [sampleInfected])] := by
  simp only [Pandemic.step]
  have hgrid : infectedState.grid = [((1, 1), [sampleInfected])] := rfl
  rw [hgrid, runGrid_one]
  simp only [runCell, runExtract_one, rngOne, sampleInfected_outcome]
  simp only [infectPhase, InfectionState.isInfected, sampleInfected, List.any_cons,
    List.any_nil]
  simp only [runInfect, infect_sampleInfected]
  simp [reinsertAll, sampleInfected, infect_sampleInfected]

theorem moveReflect_escaper :
    moveReflect (mkStepCtx escapeState 12000).dist_to_move escaper
      = ⟨5, 119, 0, .Healthy⟩ := by
  norm_num [moveReflect, mkStepCtx, escapeState, sampleState, escaper, MOVE_AMOUNT,
    X_MAX_FLOAT, Y_MAX_FLOAT, Real.sin_pi, Real.cos_pi]

theorem escaperOutcome (u : ℝ) :
    personOutcome (mkStepCtx escapeState 12000) u (5, 1) escaper
      = ⟨⟨5, 119, 0, .Healthy⟩, true, 0, 0, 0, 0⟩ := by
  rw [personOutcome_of_healthy _ u (5, 1) escaper rfl, moveReflect_escaper]
  have hlv : leavesCell (5, 1) (⟨5, 119, 0, .Healthy⟩ : Person) = true := by
    simp [leavesCell, asI32]
  rw [hlv]

theorem escapeStep_persons :
    gridPersons (Pandemic.step rngOne 12000 escapeState).grid
      = [⟨5, 119, 0, .Healthy⟩] := by
  simp only [Pandemic.step]
  have hgrid : escapeState.grid = [((5, 1), [escaper])] := rfl
  rw [hgrid, runGrid_one]
  simp only [runCell, runExtract_one, escaperOutcome]
  simp only [infectPhase, List.any_nil]
  simp only [reinsertAll, List.foldl, reinsertPerson, InfectionState.isDead]
  simp [gridPush, gridPersons, asI32]

/-- The infection loop rewrites position `j` using the `j`-th random draw
after the loop's starting stream position. -/
theorem runInfect_getElem (ctx : StepCtx) (rng : ℕ → ℝ) (l : List Person) :
    ∀ (ms : MidState) (j : ℕ),
      (runInfect ctx rng ms l).2[j]? =
        (l[j]?).map (fun p => (infectOutcome ctx (rng (ms.k + j)) p).1) := by
  induction l with
  | nil => intro ms j; simp [runInfect]
  | cons p ps ih =>
      intro ms j
      cases j with
      | zero => simp [runInfect]
      | succ j =>
          simp only [runInfect, List.getElem?_cons_succ]
          rw [ih]
          simp only
          have harith : ms.k + 1 + j = ms.k + (j + 1) := by omega
          rw [harith]

/-! ## The claims -/

/-- C1: an agent entering the movement/health closure in state `Infected t`
in a tick of frame time `Δ = e * step_speed` consumes exactly one Bernoulli
draw, whose success case is `u < 1 - (1 - death_prob) ^ (Δ / (infection_time_s * 1000))`;
on success it becomes `Dead`, the closure extracts it, and reinsertion drops
it; on failure it becomes `Recovered` when `t + Δ` strictly exceeds the
infection duration and `Infected (t + Δ)` otherwise. -/
theorem infected_death_roll_spec (s : Pandemic) (e u : ℝ) (cell : ℤ × ℤ)
    (p : Person) (t : ℝ) (h : p.state = .Infected t) :
    (personOutcome (mkStepCtx s e) u cell p).draws = 1 ∧
    (u < 1 - (1 - s.death_prob) ^ (e * s.step_speed / (s.infection_time_s * 1000)) →
      (personOutcome (mkStepCtx s e) u cell p).person.state = .Dead ∧
      (personOutcome (mkStepCtx s e) u cell p).extracted = true ∧
      ∀ g : GridMap,
        reinsertPerson g (personOutcome (mkStepCtx s e) u cell p).person = g) ∧
    (¬ u < 1 - (1 - s.death_prob) ^ (e * s.step_speed / (s.infection_time_s * 1000)) →
      ((t + e * s.step_speed > s.infection_time_s * 1000 →
        (personOutcome (mkStepCtx s e) u cell p).person.state = .Recovered) ∧
       (¬ t + e * s.step_speed > s.infection_time_s * 1000 →
        (personOutcome (mkStepCtx s e) u cell p).person.state
          = .Infected (t + e * s.step_speed)))) := by
  have hc1 : (mkStepCtx s e).survive_this_frame
      = (1 - s.death_prob) ^ (e * s.step_speed / (s.infection_time_s * 1000)) := rfl
  have hc2 : (mkStepCtx s e).frame_time = e * s.step_speed := rfl
  have hc3 : (mkStepCtx s e).infection_time = s.infection_time_s * 1000 := rfl
  rw [personOutcome_of_infected _ u cell p t h, hc1, hc2, hc3]
  refine ⟨?_, ?_, ?_⟩
  · split
    · rfl
    · split
      · rfl
      · rfl
  · intro hu
    rw [if_pos hu]
    exact ⟨rfl, rfl, fun g => rfl⟩
  · intro hu
    rw [if_neg hu]
    constructor
    · intro ht; rw [if_pos ht]
    · intro ht; rw [if_neg ht]

theorem infected_death_roll_spec_witness :
    (personOutcome (mkStepCtx sampleState 0) 2 (0, 0) witnessInfected).draws = 1 :=
  (infected_death_roll_spec sampleState 0 2 (0, 0) witnessInfected 5 rfl).1

/-- C2: when the still-resident membership of a cell contains an infected
agent, the infection pass rewrites every resident through one independent
Bernoulli draw; a `Healthy` resident becomes `Infected 0` exactly when its
draw `u` satisfies `u < 1 - (1 - infection_prob) ^ (Δ / (1.5 / MOVE_AMOUNT))`,
any other resident is unchanged; a cell with no still-resident infected agent
is left untouched and consumes no draws. -/
theorem cell_contagion_spec (s : Pandemic) (e : ℝ) (rng : ℕ → ℝ) (ms : MidState)
    (stay : List Person) (j : ℕ)
    (hinf : stay.any (fun p => p.state.isInfected) = true) :
    ((infectPhase (mkStepCtx s e) rng ms stay).2.length = stay.length) ∧
    ((infectPhase (mkStepCtx s e) rng ms stay).2[j]? =
      (stay[j]?).map (fun p => (infectOutcome (mkStepCtx s e) (rng (ms.k + j)) p).1)) ∧
    (∀ (u : ℝ) (p : Person), p.state = .Healthy →
      (infectOutcome (mkStepCtx s e) u p).1 =
        (if u < 1 - (1 - s.infection_prob) ^ (e * s.step_speed / (3 / 2 / MOVE_AMOUNT))
          then { p with state := .Infected 0 } else p)) ∧
    (∀ (u : ℝ) (p : Person), ¬ p.state = .Healthy →
      (infectOutcome (mkStepCtx s e) u p).1 = p) ∧
    (∀ (ms' : MidState) (stay' : List Person),
      stay'.any (fun p => p.state.isInfected) = false →
      infectPhase (mkStepCtx s e) rng ms' stay' = (ms', stay')) := by
  refine ⟨?_, ?_, ?_, ?_, ?_⟩
  · unfold infectPhase
    rw [if_pos hinf]
    exact runInfect_length _ rng stay ms
  · unfold infectPhase
    rw [if_pos hinf]
    exact runInfect_getElem _ rng stay ms j
  · intro u p hp
    have hc : (mkStepCtx s e).not_infected_this_frame
        = (1 - s.infection_prob) ^ (e * s.step_speed / (3 / 2 / MOVE_AMOUNT)) := rfl
    rw [infectOutcome_of_healthy _ u p hp, hc]
    split <;> rfl
  · intro u p hp
    exact congrArg Prod.fst (infectOutcome_of_not_healthy _ u p hp)
  · intro ms' stay' h0
    unfold infectPhase
    rw [if_neg (by rw [h0]; exact Bool.false_ne_true)]

theorem cell_contagion_spec_witness :
    (infectPhase (mkStepCtx sampleState 0) rngOne msZero [sampleInfected]).2.length
      = [sampleInfected].length :=
  (cell_contagion_spec sampleState 0 rngOne msZero [sampleInfected] 0 rfl).1

/-- C3: construction with `k ≤ n` yields counts `(n - k, k, 0, 0)`, and the
sum of the four aggregate counters equals `n` after any run of ticks. -/
theorem population_conservation (place : ℕ → ℝ × ℝ × ℝ) (k n : ℕ) (s : Pandemic)
    (hk : k ≤ n) (hs : Pandemic.new place k n = some s)
    (ticks : List ((ℕ → ℝ) × ℝ)) :
    s.num_healthy = (n : ℤ) - (k : ℤ) ∧ s.num_infected = (k : ℤ) ∧
    s.num_recovered = 0 ∧ s.num_dead = 0 ∧
    countsSum (runSteps s ticks) = (n : ℤ) := by
  rw [Pandemic.new, if_pos hk] at hs
  injection hs with hs
  subst hs
  refine ⟨rfl, rfl, rfl, rfl, ?_⟩
  rw [runSteps_countsSum]
  unfold countsSum
  simp only
  ring

theorem population_conservation_witness :
    countsSum (runSteps initTwo []) = (2 : ℤ) := by
  have hnew : Pandemic.new placeOne 1 2 = some initTwo := by
    rw [Pandemic.new, if_pos (by norm_num)]
    rfl
  exact (population_conservation placeOne 1 2 initTwo (by norm_num) hnew []).2.2.2.2

/-- C4 (amended): each coordinate is reflected per axis as specified, but the
heading update reads the pre-tick heading in every branch: a y-axis bounce
sets the heading to `π - heading` outright, discarding (not composing with)
any x-axis flip of the same tick. -/
theorem boundary_reflection_heading (dist : ℝ) (p : Person) :
    (moveReflect dist p).x
      = reflectCoord X_MAX_FLOAT (p.x + dist * Real.sin p.direction) ∧
    (moveReflect dist p).y
      = reflectCoord Y_MAX_FLOAT (p.y + dist * Real.cos p.direction) ∧
    (moveReflect dist p).direction =
      (if p.y + dist * Real.cos p.direction < 0 ∨
          p.y + dist * Real.cos p.direction > Y_MAX_FLOAT
        then Real.pi - p.direction
        else if p.x + dist * Real.sin p.direction < 0 ∨
            p.x + dist * Real.sin p.direction > X_MAX_FLOAT
          then -p.direction
          else p.direction) ∧
    (moveReflect dist p).state = p.state := by
  refine ⟨?_, ?_, ?_, rfl⟩
  · simp only [moveReflect, reflectCoord]
    split_ifs <;> rfl
  · simp only [moveReflect, reflectCoord]
    split_ifs <;> rfl
  · simp only [moveReflect]
    split_ifs <;> first | rfl | tauto

/-- C4 counterexample: a tick in which both axes reflect.  The resulting
heading is `π - heading`; it is neither composition of the two single-axis
flips, so the flips are not composed. -/
theorem boundary_reflection_no_compose :
    (cornerPerson.x + 2 * Real.sin cornerPerson.direction < 0) ∧
    (cornerPerson.y + 2 * Real.cos cornerPerson.direction < 0) ∧
    (moveReflect 2 cornerPerson).direction = Real.pi - cornerPerson.direction ∧
    (moveReflect 2 cornerPerson).direction ≠ Real.pi - (-cornerPerson.direction) ∧
    (moveReflect 2 cornerPerson).direction ≠ -(Real.pi - cornerPerson.direction) := by
  have hsin : Real.sin cornerPerson.direction = -(Real.sqrt 2 / 2) := by
    simp [cornerPerson, Real.sin_add, Real.sin_pi_div_four, Real.cos_pi_div_four,
      Real.sin_pi, Real.cos_pi]
  have hcos : Real.cos cornerPerson.direction = -(Real.sqrt 2 / 2) := by
    simp [cornerPerson, Real.cos_add, Real.sin_pi_div_four, Real.cos_pi_div_four,
      Real.sin_pi, Real.cos_pi]
  have hsqrt : 1 < Real.sqrt 2 := by
    rw [show (1 : ℝ) = Real.sqrt 1 from (Real.sqrt_one).symm]
    exact Real.sqrt_lt_sqrt (by norm_num) (by norm_num)
  have hx : cornerPerson.x + 2 * Real.sin cornerPerson.direction < 0 := by
    rw [hsin]
    have : cornerPerson.x = 1 / 2 := rfl
    rw [this]
    nlinarith
  have hy : cornerPerson.y + 2 * Real.cos cornerPerson.direction < 0 := by
    rw [hcos]
    have : cornerPerson.y = 1 / 2 := rfl
    rw [this]
    nlinarith
  have hdir : (moveReflect 2 cornerPerson).direction
      = Real.pi - cornerPerson.direction := by
    simp only [moveReflect]
    rw [if_pos hy]
  have hpi := Real.pi_pos
  have hd : cornerPerson.direction = Real.pi + Real.pi / 4 := rfl
  refine ⟨hx, hy, hdir, ?_, ?_⟩
  · rw [hdir, hd]
    intro hEq
    nlinarith
  · rw [hdir, hd]
    intro hEq
    nlinarith

/-- C5 (amended): the end-of-tick position of every agent lies inside the
domain provided the frame's travel distance `MOVE_AMOUNT * Δ` is nonnegative
and does not exceed either domain extent (the original claim, for all finite
frame times, fails: see the escape counterexample). -/
theorem reflection_in_domain_bounded (rng : ℕ → ℝ) (e : ℝ) (s : Pandemic)
    (hd0 : 0 ≤ MOVE_AMOUNT * (e * s.step_speed))
    (hdx : MOVE_AMOUNT * (e * s.step_speed) ≤ X_MAX_FLOAT)
    (hdy : MOVE_AMOUNT * (e * s.step_speed) ≤ Y_MAX_FLOAT)
    (hdom : ∀ p ∈ gridPersons s.grid, inDomain p) :
    ∀ q ∈ gridPersons (Pandemic.step rng e s).grid, inDomain q := by
  intro q hq
  obtain ⟨p, hp, u, cell, hrel⟩ := step_ancestor rng e s q hq
  have hmr : inDomain (moveReflect (mkStepCtx s e).dist_to_move p) := by
    have hd : (mkStepCtx s e).dist_to_move = MOVE_AMOUNT * (e * s.step_speed) := rfl
    rw [hd]
    exact moveReflect_inDomain _ p hd0 hdx hdy (hdom p hp)
  have hpos := personOutcome_pos (mkStepCtx s e) u cell p
  rcases hrel with hq1 | ⟨v, hq1⟩
  · rw [hq1]
    unfold inDomain at hmr ⊢
    rw [hpos.1, hpos.2]
    exact hmr
  · rw [hq1]
    have hipos := infectOutcome_pos (mkStepCtx s e) v
      (personOutcome (mkStepCtx s e) u cell p).person
    unfold inDomain at hmr ⊢
    rw [hipos.1, hipos.2, hpos.1, hpos.2]
    exact hmr

theorem reflection_in_domain_bounded_witness : inDomain sampleRecovered :=
  reflection_in_domain_bounded rngOne 0 sampleState
    (by norm_num [MOVE_AMOUNT])
    (by norm_num [MOVE_AMOUNT, X_MAX_FLOAT])
    (by norm_num [MOVE_AMOUNT, Y_MAX_FLOAT])
    (by
      intro p hp
      simp [gridPersons, sampleState] at hp
      rw [hp]
      norm_num [inDomain, sampleRecovered, X_MAX_FLOAT, Y_MAX_FLOAT])
    sampleRecovered
    (by rw [sampleStep_grid]; simp [gridPersons])

/-- C5 counterexample: an in-domain agent, one tick of 12000 ms (finite,
nonnegative frame time), and the single-pass reflection leaves it at
`y = 119`, outside the `[0, 50]` range. -/
theorem reflection_escapes_domain :
    inDomain escaper ∧ (0 : ℝ) ≤ 12000 ∧
    gridPersons (Pandemic.step rngOne 12000 escapeState).grid
      = [⟨5, 119, 0, .Healthy⟩] ∧
    ¬ inDomain (⟨5, 119, 0, .Healthy⟩ : Person) := by
  refine ⟨?_, by norm_num, escapeStep_persons, ?_⟩
  · norm_num [inDomain, escaper, X_MAX_FLOAT, Y_MAX_FLOAT]
  · norm_num [inDomain, X_MAX_FLOAT, Y_MAX_FLOAT]

/-- C6: every post-tick agent descends from a pre-tick agent through a legal
transition (no direct `Healthy -> Dead`); within each phase the terminal
states `Recovered` and `Dead` are fixed, the movement/health closure leaves
`Healthy` untouched, the infection draw leaves non-`Healthy` untouched, and
the legal-transition relation itself forbids `Healthy -> Dead`,
`Recovered -> *` and `Dead -> *`. -/
theorem transition_legality (rng : ℕ → ℝ) (e : ℝ) (s : Pandemic) :
    (∀ q ∈ gridPersons (Pandemic.step rng e s).grid,
      ∃ p ∈ gridPersons s.grid, LegalTick (e * s.step_speed) p.state q.state) ∧
    (∀ (u : ℝ) (cell : ℤ × ℤ) (p : Person), p.state = .Recovered →
      (personOutcome (mkStepCtx s e) u cell p).person.state = .Recovered) ∧
    (∀ (u : ℝ) (cell : ℤ × ℤ) (p : Person), p.state = .Dead →
      (personOutcome (mkStepCtx s e) u cell p).person.state = .Dead) ∧
    (∀ (u : ℝ) (cell : ℤ × ℤ) (p : Person), p.state = .Healthy →
      (personOutcome (mkStepCtx s e) u cell p).person.state = .Healthy) ∧
    (∀ (u : ℝ) (p : Person), ¬ p.state = .Healthy →
      (infectOutcome (mkStepCtx s e) u p).1 = p) ∧
    (∀ a b : InfectionState, LegalTick (e * s.step_speed) a b →
      (a = .Healthy → ¬ b = .Dead) ∧ (a = .Recovered → b = .Recovered) ∧
      (a = .Dead → b = .Dead)) := by
  refine ⟨?_, personOutcome_state_of_recovered _, personOutcome_state_of_dead _,
    personOutcome_state_of_healthy _,
    fun u p hp => congrArg Prod.fst (infectOutcome_of_not_healthy _ u p hp), ?_⟩
  · intro q hq
    obtain ⟨p, hp, hrel⟩ := step_ancestor rng e s q hq
    exact ⟨p, hp, tickRel_legal _ p q hrel⟩
  · intro a b h
    cases h <;> refine ⟨fun h1 => ?_, fun h2 => ?_, fun h3 => ?_⟩ <;>
      first
        | rfl
        | (intro hc; cases hc; done)
        | (cases h1; done)
        | (cases h2; done)
        | (cases h3; done)

theorem transition_legality_witness :
    ∃ p ∈ gridPersons sampleState.grid,
      LegalTick (0 * sampleState.step_speed) p.state sampleRecovered.state :=
  (transition_legality rngOne 0 sampleState).1 sampleRecovered
    (by rw [sampleStep_grid]; simp [gridPersons])

/-- C7: if the index holds no dead agent before a tick, it holds none after,
and the tick's deaths move one-for-one from the index population into the
dead counter (their sum is preserved). -/
theorem dead_not_in_index (rng : ℕ → ℝ) (e : ℝ) (s : Pandemic)
    (hnd : gridNoDead s.grid) :
    gridNoDead (Pandemic.step rng e s).grid ∧
    (Pandemic.step rng e s).num_dead
        + ((gridPersons (Pandemic.step rng e s).grid).length : ℤ)
      = s.num_dead + ((gridPersons s.grid).length : ℤ) :=
  ⟨step_noDead rng e s hnd, step_dead_population rng e s hnd⟩

theorem dead_not_in_index_witness :
    gridNoDead (Pandemic.step rngOne 0 sampleState).grid :=
  (dead_not_in_index rngOne 0 sampleState
    (by
      intro p hp
      simp [gridPersons, sampleState] at hp
      rw [hp]
      rfl)).1

/-- C8 (amended): each tick appends exactly one snapshot carrying the tick's
final four aggregate counters, and its timestamp is the accumulated real
elapsed time: `time_elapsed` grows by the unscaled `e`, not by
`e * step_speed` (the original claim's scaled accumulation fails: see the
counterexample). -/
theorem snapshot_append_real_time (rng : ℕ → ℝ) (e : ℝ) (s : Pandemic) :
    (Pandemic.step rng e s).stats = s.stats ++
      [⟨s.time_elapsed + e,
        (Pandemic.step rng e s).num_healthy, (Pandemic.step rng e s).num_infected,
        (Pandemic.step rng e s).num_recovered, (Pandemic.step rng e s).num_dead⟩] ∧
    (Pandemic.step rng e s).time_elapsed = s.time_elapsed + e :=
  ⟨step_stats_eq rng e s, step_time_elapsed rng e s⟩

/-- C8 counterexample: at `step_speed = 2`, a tick of 100 real ms contributes
`frame_time = 200` simulated ms, yet the appended snapshot's timestamp is
100: the timestamp accumulates real time, not scaled simulation time. -/
theorem snapshot_time_not_scaled :
    (Pandemic.step rngOne 100 speedState).stats.map PandemicSnapshot.time
      = [(100 : ℝ)] ∧
    (100 : ℝ) ≠ 100 * speedState.step_speed := by
  constructor
  · rw [step_stats_eq]
    simp [speedState, sampleState]
  · simp [speedState, sampleState]

/-- C9 (code-bug evidence): constructing with more initial infected than
total is neither rejected-with-error nor clamped: the `usize` subtraction
`total - infected` underflows and the program aborts mid-construction,
modelled by `none`. -/
theorem new_underflow_aborts : Pandemic.new placeOne 6 5 = none := by
  rw [Pandemic.new, if_neg (by norm_num)]

/-- C10: a `Healthy` agent is untouched by the movement/health closure
(consuming no death draw), its only same-tick evolution is to `Infected 0`
through the infection pass that runs after that closure, and every infected
agent at the end of a tick either is freshly infected with elapsed time
exactly 0 or carried `Infected t0` into the tick and left it with
`t0 + frame_time`. -/
theorem fresh_infection_zero_time (rng : ℕ → ℝ) (e : ℝ) (s : Pandemic) :
    (∀ (u : ℝ) (cell : ℤ × ℤ) (p : Person), p.state = .Healthy →
      (personOutcome (mkStepCtx s e) u cell p).person.state = .Healthy ∧
      (personOutcome (mkStepCtx s e) u cell p).draws = 0) ∧
    (∀ (u v : ℝ) (cell : ℤ × ℤ) (p : Person), p.state = .Healthy →
      (infectOutcome (mkStepCtx s e) v
        (personOutcome (mkStepCtx s e) u cell p).person).1.state = .Healthy ∨
      (infectOutcome (mkStepCtx s e) v
        (personOutcome (mkStepCtx s e) u cell p).person).1.state = .Infected 0) ∧
    (∀ q ∈ gridPersons (Pandemic.step rng e s).grid, ∀ t : ℝ,
      q.state = .Infected t →
      t = 0 ∨ ∃ p ∈ gridPersons s.grid, ∃ t0 : ℝ,
        p.state = .Infected t0 ∧ t = t0 + e * s.step_speed) := by
  refine ⟨?_, ?_, ?_⟩
  · intro u cell p hp
    refine ⟨personOutcome_state_of_healthy _ u cell p hp, ?_⟩
    rw [personOutcome_of_healthy _ u cell p hp]
  · intro u v cell p hp
    have h1 := personOutcome_state_of_healthy (mkStepCtx s e) u cell p hp
    rcases infectOutcome_state (mkStepCtx s e) v
        (personOutcome (mkStepCtx s e) u cell p).person with h2 | ⟨_, h2⟩
    · left; rw [h2]; exact h1
    · right; exact h2
  · intro q hq t ht
    obtain ⟨p, hp, hrel⟩ := step_ancestor rng e s q hq
    have hl := tickRel_legal _ p q hrel
    rw [ht] at hl
    generalize hgen : p.state = a at hl
    cases hl with
    | infect => exact Or.inl rfl
    | advance t0 => exact Or.inr ⟨p, hp, t0, hgen, rfl⟩

theorem fresh_infection_zero_time_witness :
    (0 : ℝ) = 0 ∨ ∃ p ∈ gridPersons infectedState.grid, ∃ t0 : ℝ,
      p.state = .Infected t0 ∧ (0 : ℝ) = t0 + 0 * infectedState.step_speed :=
  (fresh_infection_zero_time rngOne 0 infectedState).2.2 sampleInfected
    (by rw [infectedStep_grid]; simp [gridPersons]) 0 rfl

end
